import Mathlib

/-!
Verification of the sparse linear-algebra containers of this repository.

The repository contains two layers:

* a JavaScript reference implementation of `SparseMatrix`
  (`src/sparsematrix.js`, and the benchmark variant in `src/unnamed/part_002`
  which additionally has `nullifyCoefficient` and the `#clearLines` /
  `#clearColumns` helpers);
* a C++ header-only library (`src/OSM/Chain.hpp`, `src/OSM/SparseMatrix.hpp`)
  that only contains declarations and documentation comments — the function
  bodies are not part of the repository, so those operations are modelled
  from the specification text.

JavaScript plain objects used as integer-keyed maps are embedded as
association lists; JavaScript arrays are embedded as Lean lists with
functional update.  All embeddings are executable.
-/

namespace SMJS

/-- Flag constant `COLUMNS = 0b01` from `src/sparsematrix.js`. -/
def COLUMNS : Nat := 1

/-- Flag constant `LINES = 0b10` from `src/sparsematrix.js`. -/
def LINES : Nat := 2

/-- A JavaScript plain object used as a map from integer keys to numbers,
embedded as an association list.  Key sets and lookups coincide with the
JS object; only the (unobserved) iteration order of an overwritten key
differs. -/
abbrev JsMap := List (Nat × Int)

namespace JsMap

/-- Lookup `m[k]`: the value stored at key `k`, or `none` (undefined). -/
def get? (m : JsMap) (k : Nat) : Option Int :=
  (m.find? (fun p => p.1 == k)).map Prod.snd

/-- Assignment `m[k] = v`: insert or overwrite the entry at key `k`. -/
def set (m : JsMap) (k : Nat) (v : Int) : JsMap :=
  m.filter (fun p => p.1 != k) ++ [(k, v)]

/-- Deletion `delete m[k]`: remove the entry at key `k` if present. -/
def del (m : JsMap) (k : Nat) : JsMap :=
  m.filter (fun p => p.1 != k)

/-- Emptiness test `Object.keys(m).length == 0`. -/
def isEmpty (m : JsMap) : Bool := List.isEmpty m

theorem isEmpty_set (m : JsMap) (k : Nat) (v : Int) :
    (m.set k v).isEmpty = false := by
  simp [JsMap.set, JsMap.isEmpty]

theorem isEmpty_del_false (m : JsMap) (k : Nat)
    (h : (m.del k).isEmpty = false) : m.isEmpty = false := by
  cases m with
  | nil => simp [JsMap.del, JsMap.isEmpty] at h
  | cons p rest => simp [JsMap.isEmpty]

theorem get?_of_isEmpty (m : JsMap) (k : Nat) (h : m.isEmpty = true) :
    m.get? k = none := by
  cases m with
  | nil => rfl
  | cons p rest => simp [JsMap.isEmpty] at h

end JsMap

/-- State of the JavaScript `SparseMatrix` class: the public fields
`lines`, `columns`, `linesIndex`, `columnsIndex` and the private `#flags`.
When a flag bit is off the corresponding array is `undefined` in JS and
never touched; it is embedded as the empty list. -/
structure SparseMatrix where
  flags : Nat
  lines : List JsMap
  columns : List JsMap
  linesIndex : List Nat
  columnsIndex : List Nat
deriving DecidableEq

/-- Errors thrown by the JS implementation. -/
inductive JsError where
  | rangeError
  | typeError
deriving DecidableEq

/-- Guard expression of `#assertLine` (both JS files):
`this.#flags & LINES == 0`.  In JavaScript `==` binds tighter than `&`,
so this parses as `flags & (LINES == 0)`, with the boolean coerced to a
number.  The function returns whether the `TypeError` is thrown. -/
def assertLineThrows (flags : Nat) : Bool :=
  flags &&& (if LINES = 0 then 1 else 0) != 0

/-- Guard expression of `#assertColumn` in `src/sparsematrix.js`
(lines 37-41): it too tests `this.#flags & LINES == 0`. -/
def assertColumnThrowsA (flags : Nat) : Bool :=
  flags &&& (if LINES = 0 then 1 else 0) != 0

/-- Guard expression of `#assertColumn` in `src/unnamed/part_002`
(first class): `this.#flags & COLUMNS == 0`, same precedence. -/
def assertColumnThrowsB (flags : Nat) : Bool :=
  flags &&& (if COLUMNS = 0 then 1 else 0) != 0

/-- The JS `constructor(_lines_size, _columns_size, _flags)`.  Note the
source allocates **both** arrays with `_columns_size` slots and never
reads `_lines_size`. -/
def construct (linesSize columnsSize flags : Nat) : Except JsError SparseMatrix :=
  if flags < 1 || flags > 3 then .error .rangeError
  else .ok ⟨flags,
    (if flags &&& LINES != 0 then List.replicate columnsSize [] else []),
    (if flags &&& COLUMNS != 0 then List.replicate columnsSize [] else []),
    [], []⟩

/-- Membership scan of `isNullLine` (the `#assertLine` guard it calls is a
no-op; see the C8 theorem). -/
def isNullLine (M : SparseMatrix) (index : Nat) : Bool :=
  !(decide (index ∈ M.linesIndex))

/-- Membership scan of `isNullColumn`. -/
def isNullColumn (M : SparseMatrix) (index : Nat) : Bool :=
  !(decide (index ∈ M.columnsIndex))

/-- The JS `getLine(index)`: runs `#assertLine` then returns
`this.lines[index]` (which is `undefined` out of range — no bounds
check). -/
def getLine (M : SparseMatrix) (index : Nat) : Except JsError (Option JsMap) :=
  if assertLineThrows M.flags then .error .typeError
  else .ok M.lines[index]?

/-- The JS `getColumn(index)` (using the `part_002` guard; the
`sparsematrix.js` guard differs textually but both are no-ops). -/
def getColumn (M : SparseMatrix) (index : Nat) : Except JsError (Option JsMap) :=
  if assertColumnThrowsB M.flags then .error .typeError
  else .ok M.columns[index]?

/-- The JS `getCoefficient(l_index, c_index)` (identical in both files). -/
def getCoefficient (M : SparseMatrix) (lIndex cIndex : Nat) : Int :=
  if M.flags &&& LINES != 0 then
    if isNullLine M lIndex then 0
    else ((M.lines.getD lIndex []).get? cIndex).getD 0
  else
    if isNullColumn M cIndex then 0
    else ((M.columns.getD cIndex []).get? lIndex).getD 0

/-- The `if (this.#flags & LINES)` branch of `setCoefficient`.  The JS
statements run in order: `linesIndex.push(l_index)` when the line is
null, then `this.lines[l_index][c_index] = value`.  When `l_index` is
outside the allocated array, `this.lines[l_index]` is `undefined` and
the write throws a TypeError **after** the push, so the partially
mutated state (the index pushed, no chain written) survives the throw
and is observable by a caller that catches.  The result is that state
together with the thrown error, if any. -/
def setCoefLines (M : SparseMatrix) (lIndex cIndex : Nat) (value : Int) :
    SparseMatrix × Option JsError :=
  if M.flags &&& LINES != 0 then
    let idx := if isNullLine M lIndex then M.linesIndex ++ [lIndex]
               else M.linesIndex
    if lIndex < M.lines.length then
      (⟨M.flags,
        M.lines.set lIndex ((M.lines.getD lIndex []).set cIndex value),
        M.columns, idx, M.columnsIndex⟩, none)
    else
      (⟨M.flags, M.lines, M.columns, idx, M.columnsIndex⟩, some .typeError)
  else (M, none)

/-- The `if (this.#flags & COLUMNS)` branch of `setCoefficient`, with
the same push-then-throw behavior on an out-of-range `c_index`. -/
def setCoefColumns (M : SparseMatrix) (lIndex cIndex : Nat) (value : Int) :
    SparseMatrix × Option JsError :=
  if M.flags &&& COLUMNS != 0 then
    let idx := if isNullColumn M cIndex then M.columnsIndex ++ [cIndex]
               else M.columnsIndex
    if cIndex < M.columns.length then
      (⟨M.flags, M.lines,
        M.columns.set cIndex ((M.columns.getD cIndex []).set lIndex value),
        M.linesIndex, idx⟩, none)
    else
      (⟨M.flags, M.lines, M.columns, M.linesIndex, idx⟩, some .typeError)
  else (M, none)

/-- The JS `setCoefficient(l_index, c_index, value)` (identical in both
files): the LINES branch runs first, then the COLUMNS branch; a throw
in the LINES branch propagates, skipping the COLUMNS branch. -/
def setCoefficient (M : SparseMatrix) (lIndex cIndex : Nat) (value : Int) :
    SparseMatrix × Option JsError :=
  match setCoefLines M lIndex cIndex value with
  | (M1, none) => setCoefColumns M1 lIndex cIndex value
  | (M1, some e) => (M1, some e)

/-- One step of `#clearLines` / `#clearColumns`: if the chain at `index`
is empty, filter `index` out of the accumulated index list. -/
def clearIndexStep (chains : List JsMap) (acc : List Nat) (index : Nat) :
    List Nat :=
  if (chains.getD index []).isEmpty then acc.filter (fun e => e != index)
  else acc

/-- The `#clearLines` / `#clearColumns` helper of `src/unnamed/part_002`:
`for (let index of this.linesIndex)` iterates the array captured at loop
entry while the field is re-assigned to filtered copies, so the net
effect is a left fold of `clearIndexStep` over the original list. -/
def clearIndex (chains : List JsMap) (idx : List Nat) : List Nat :=
  idx.foldl (clearIndexStep chains) idx

/-- The JS `nullifyLine(index)` of `src/sparsematrix.js` (lines 77-82):
resets `lines[index]` to `{}` and filters `index` out of `linesIndex`,
touching nothing else. -/
def nullifyLineSimple (M : SparseMatrix) (index : Nat) : SparseMatrix :=
  ⟨M.flags,
   M.lines.set index [],
   M.columns,
   M.linesIndex.filter (fun e => e != index),
   M.columnsIndex⟩

/-- The JS `nullifyColumn(index)` of `src/sparsematrix.js` (lines 84-89). -/
def nullifyColumnSimple (M : SparseMatrix) (index : Nat) : SparseMatrix :=
  ⟨M.flags,
   M.lines,
   M.columns.set index [],
   M.linesIndex,
   M.columnsIndex.filter (fun e => e != index)⟩

/-- The `if (this.#flags & COLUMNS)` sweep of `nullifyLine` in
`src/unnamed/part_002`: delete key `index` from every indexed column,
then run `#clearColumns`. -/
def nullifyLineSweep (M : SparseMatrix) (index : Nat) : SparseMatrix :=
  if M.flags &&& COLUMNS != 0 then
    let cols := M.columnsIndex.foldl
      (fun cs c => cs.set c ((cs.getD c []).del index)) M.columns
    ⟨M.flags, M.lines, cols, M.linesIndex, clearIndex cols M.columnsIndex⟩
  else M

/-- The JS `nullifyLine(index)` of `src/unnamed/part_002` (first class):
the column sweep followed by the same tail as `sparsematrix.js`. -/
def nullifyLine (M : SparseMatrix) (index : Nat) : SparseMatrix :=
  nullifyLineSimple (nullifyLineSweep M index) index

/-- The `if (this.#flags & LINES)` sweep of `nullifyColumn` in
`src/unnamed/part_002`. -/
def nullifyColumnSweep (M : SparseMatrix) (index : Nat) : SparseMatrix :=
  if M.flags &&& LINES != 0 then
    let ls := M.linesIndex.foldl
      (fun cs l => cs.set l ((cs.getD l []).del index)) M.lines
    ⟨M.flags, ls, M.columns, clearIndex ls M.linesIndex, M.columnsIndex⟩
  else M

/-- The JS `nullifyColumn(index)` of `src/unnamed/part_002` (first class). -/
def nullifyColumn (M : SparseMatrix) (index : Nat) : SparseMatrix :=
  nullifyColumnSimple (nullifyColumnSweep M index) index

/-- The `if (this.#flags & LINES)` branch of `nullifyCoefficient`
(`src/unnamed/part_002` lines 123-133): `delete this.lines[l][c]` then
`#clearLines`.  When `l_index` is outside the allocated array the
delete throws a TypeError before mutating anything, so the state is
returned unchanged with the error. -/
def nulCoefLines (M : SparseMatrix) (lIndex cIndex : Nat) :
    SparseMatrix × Option JsError :=
  if M.flags &&& LINES != 0 then
    if lIndex < M.lines.length then
      let ls := M.lines.set lIndex ((M.lines.getD lIndex []).del cIndex)
      (⟨M.flags, ls, M.columns, clearIndex ls M.linesIndex, M.columnsIndex⟩,
        none)
    else (M, some .typeError)
  else (M, none)

/-- The `if (this.#flags & COLUMNS)` branch of `nullifyCoefficient`. -/
def nulCoefColumns (M : SparseMatrix) (lIndex cIndex : Nat) :
    SparseMatrix × Option JsError :=
  if M.flags &&& COLUMNS != 0 then
    if cIndex < M.columns.length then
      let cs := M.columns.set cIndex ((M.columns.getD cIndex []).del lIndex)
      (⟨M.flags, M.lines, cs, M.linesIndex, clearIndex cs M.columnsIndex⟩,
        none)
    else (M, some .typeError)
  else (M, none)

/-- The JS `nullifyCoefficient(l_index, c_index)` of
`src/unnamed/part_002`; a throw in the LINES branch propagates,
skipping the COLUMNS branch. -/
def nullifyCoefficient (M : SparseMatrix) (lIndex cIndex : Nat) :
    SparseMatrix × Option JsError :=
  match nulCoefLines M lIndex cIndex with
  | (M1, none) => nulCoefColumns M1 lIndex cIndex
  | (M1, some e) => (M1, some e)

/-- A non-empty index list is correct for a chain array when it holds
exactly the positions whose chain has at least one entry.  (Any member
of the list automatically lies within the array, since a position past
the end reads as the empty map.) -/
def IndexInv (chains : List JsMap) (idx : List Nat) : Prop :=
  (∀ i ∈ idx, (chains.getD i []).isEmpty = false) ∧
  (∀ i, i < chains.length → (chains.getD i []).isEmpty = false → i ∈ idx)

/-- The documented invariant of the sparse matrix: `linesIndex` and
`columnsIndex` each list exactly the non-empty chains of their array. -/
def Inv (M : SparseMatrix) : Prop :=
  IndexInv M.lines M.linesIndex ∧ IndexInv M.columns M.columnsIndex

instance (chains : List JsMap) (idx : List Nat) : Decidable (IndexInv chains idx) :=
  inferInstanceAs (Decidable (_ ∧ _))

instance (M : SparseMatrix) : Decidable (Inv M) :=
  inferInstanceAs (Decidable (_ ∧ _))

/-- A mutation of the JS sparse matrix, in either implementation file:
`setCoefficient` (identical in both), the nullify operations of
`src/unnamed/part_002`, and the simple nullify operations of
`src/sparsematrix.js`. -/
inductive Mutation where
  | set (lIndex cIndex : Nat) (value : Int)
  | nulLine (index : Nat)
  | nulColumn (index : Nat)
  | nulCoef (lIndex cIndex : Nat)
  | nulLineSimple (index : Nat)
  | nulColumnSimple (index : Nat)
deriving DecidableEq

/-- Interpretation of a mutation on the matrix state: the resulting
state (partially mutated when the operation throws mid-way) together
with the thrown error, if any.  The nullify-line/column operations never
throw. -/
def Mutation.apply (M : SparseMatrix) : Mutation → SparseMatrix × Option JsError
  | .set l c v => setCoefficient M l c v
  | .nulLine i => (nullifyLine M i, none)
  | .nulColumn i => (nullifyColumn M i, none)
  | .nulCoef l c => nullifyCoefficient M l c
  | .nulLineSimple i => (nullifyLineSimple M i, none)
  | .nulColumnSimple i => (nullifyColumnSimple M i, none)

theorem getD_set_ne (chains : List JsMap) (l i : Nat) (m : JsMap) (h : i ≠ l) :
    (chains.set l m).getD i [] = chains.getD i [] := by
  simp [List.getD_eq_getElem?_getD, List.getElem?_set_ne (Ne.symm h)]

theorem getD_set_self (chains : List JsMap) (l : Nat) (m : JsMap)
    (h : l < chains.length) :
    (chains.set l m).getD l [] = m := by
  simp [List.getD_eq_getElem?_getD, List.getElem?_set_self h]

theorem mem_clearFold (chains : List JsMap) (scan : List Nat) (acc : List Nat)
    (i : Nat) :
    (i ∈ scan.foldl (clearIndexStep chains) acc) ↔
      i ∈ acc ∧ (i ∈ scan → (chains.getD i []).isEmpty = false) := by
  induction scan generalizing acc with
  | nil => simp
  | cons c rest ih =>
    simp only [List.foldl_cons, ih, clearIndexStep]
    by_cases hc : (chains.getD c []).isEmpty = true
    · rw [if_pos hc]
      by_cases hic : i = c
      · subst hic
        constructor
        · rintro ⟨h1, -⟩
          rcases List.mem_filter.mp h1 with ⟨-, hne⟩
          simp at hne
        · rintro ⟨-, h2⟩
          have h3 := h2 (List.mem_cons_self _ _)
          rw [hc] at h3
          cases h3
      · simp only [List.mem_filter, List.mem_cons]
        constructor
        · rintro ⟨⟨hiacc, -⟩, hrest⟩
          refine ⟨hiacc, ?_⟩
          rintro (h | h)
          · exact absurd h hic
          · exact hrest h
        · rintro ⟨hiacc, hall⟩
          refine ⟨⟨hiacc, by simpa using hic⟩, fun h => hall (Or.inr h)⟩
    · rw [if_neg hc]
      rw [Bool.not_eq_true] at hc
      by_cases hic : i = c
      · subst hic
        constructor
        · rintro ⟨h1, -⟩
          exact ⟨h1, fun _ => hc⟩
        · rintro ⟨h1, -⟩
          exact ⟨h1, fun _ => hc⟩
      · simp only [List.mem_cons]
        constructor
        · rintro ⟨hiacc, hrest⟩
          refine ⟨hiacc, ?_⟩
          rintro (h | h)
          · exact absurd h hic
          · exact hrest h
        · rintro ⟨hiacc, hall⟩
          exact ⟨hiacc, fun h => hall (Or.inr h)⟩

theorem mem_clearIndex (chains : List JsMap) (idx : List Nat) (i : Nat) :
    i ∈ clearIndex chains idx ↔
      i ∈ idx ∧ (chains.getD i []).isEmpty = false := by
  rw [clearIndex, mem_clearFold]
  constructor
  · rintro ⟨h1, h2⟩
    exact ⟨h1, h2 h1⟩
  · rintro ⟨h1, h2⟩
    exact ⟨h1, fun _ => h2⟩

/-- Positions untouched by the delete sweep keep their chain. -/
theorem getD_delFold_not_mem (index : Nat) (idx : List Nat)
    (cols : List JsMap) (c : Nat) (hc : c ∉ idx) :
    ((idx.foldl (fun cs x => cs.set x ((cs.getD x []).del index)) cols).getD c [])
      = cols.getD c [] := by
  induction idx generalizing cols with
  | nil => rfl
  | cons x rest ih =>
    have hcx : c ≠ x := fun h => hc (h ▸ List.mem_cons_self x rest)
    have hcr : c ∉ rest := fun h => hc (List.mem_cons_of_mem x h)
    rw [List.foldl_cons, ih _ hcr, getD_set_ne _ _ _ _ hcx]

/-- The delete sweep only deletes: a chain non-empty afterwards was
non-empty before. -/
theorem delFold_isEmpty_false (index : Nat) (idx : List Nat)
    (cols : List JsMap) (c : Nat)
    (h : ((idx.foldl (fun cs x => cs.set x ((cs.getD x []).del index)) cols).getD c []).isEmpty = false) :
    (cols.getD c []).isEmpty = false := by
  induction idx generalizing cols with
  | nil => exact h
  | cons x rest ih =>
    rw [List.foldl_cons] at h
    have h' := ih _ h
    by_cases hcx : c = x
    · subst hcx
      by_cases hlen : c < cols.length
      · rw [getD_set_self _ _ _ hlen] at h'
        exact JsMap.isEmpty_del_false _ _ h'
      · rw [List.set_eq_of_length_le (Nat.le_of_not_lt hlen)] at h'
        exact h'
    · rwa [getD_set_ne _ _ _ _ hcx] at h'

theorem length_delFold (index : Nat) (idx : List Nat) (cols : List JsMap) :
    (idx.foldl (fun cs x => cs.set x ((cs.getD x []).del index)) cols).length
      = cols.length := by
  induction idx generalizing cols with
  | nil => rfl
  | cons x rest ih => rw [List.foldl_cons, ih, List.length_set]

/-- Writing an entry into chain `l` and registering `l` preserves the
index invariant. -/
theorem IndexInv.setEntry (chains : List JsMap) (idx : List Nat)
    (l c : Nat) (v : Int) (hInv : IndexInv chains idx) (hl : l < chains.length) :
    IndexInv (chains.set l ((chains.getD l []).set c v))
      (if !(decide (l ∈ idx)) then idx ++ [l] else idx) := by
  have hmem : ∀ i : Nat,
      (i ∈ if !(decide (l ∈ idx)) then idx ++ [l] else idx) ↔ (i ∈ idx ∨ i = l) := by
    intro i
    by_cases hl2 : l ∈ idx
    · simp only [decide_eq_true hl2, Bool.not_true, Bool.false_eq_true, if_false]
      constructor
      · exact Or.inl
      · rintro (h | h)
        · exact h
        · exact h ▸ hl2
    · simp [hl2]
  constructor
  · intro i hi
    by_cases hil : i = l
    · subst hil
      rw [getD_set_self _ _ _ hl]
      exact JsMap.isEmpty_set _ _ _
    · rcases (hmem i).mp hi with h | h
      · rw [getD_set_ne _ _ _ _ hil]
        exact hInv.1 i h
      · exact absurd h hil
  · intro i hlen hne
    by_cases hil : i = l
    · exact (hmem i).mpr (Or.inr hil)
    · rw [getD_set_ne _ _ _ _ hil] at hne
      rw [List.length_set] at hlen
      exact (hmem i).mpr (Or.inl (hInv.2 i hlen hne))

/-- Resetting chain `i` to the empty map and filtering `i` out preserves
the index invariant. -/
theorem IndexInv.nullify (chains : List JsMap) (idx : List Nat) (i : Nat)
    (hInv : IndexInv chains idx) :
    IndexInv (chains.set i []) (idx.filter (fun e => e != i)) := by
  constructor
  · intro j hj
    rcases List.mem_filter.mp hj with ⟨hjidx, hne⟩
    have hji : j ≠ i := by simpa using hne
    rw [getD_set_ne _ _ _ _ hji]
    exact hInv.1 j hjidx
  · intro j hlen hne
    rw [List.length_set] at hlen
    by_cases hji : j = i
    · subst hji
      rw [getD_set_self _ _ _ hlen] at hne
      cases hne
    · rw [getD_set_ne _ _ _ _ hji] at hne
      exact List.mem_filter.mpr ⟨hInv.2 j hlen hne, by simpa using hji⟩

/-- Running the clear helper over any index list that is complete (every
non-empty position is listed) restores the full invariant. -/
theorem IndexInv.clearRepair (chains : List JsMap) (idx : List Nat)
    (h2 : ∀ i, i < chains.length → (chains.getD i []).isEmpty = false → i ∈ idx) :
    IndexInv chains (clearIndex chains idx) := by
  constructor
  · intro i hi
    exact ((mem_clearIndex chains idx i).mp hi).2
  · intro i hlen hne
    exact (mem_clearIndex chains idx i).mpr ⟨h2 i hlen hne, hne⟩

/-- After the delete sweep of `nullifyLine`, the old column index list is
still complete for the swept columns. -/
theorem delFold_complete (index : Nat) (idx : List Nat) (cols : List JsMap)
    (hInv : IndexInv cols idx) :
    ∀ c, c < (idx.foldl (fun cs x => cs.set x ((cs.getD x []).del index)) cols).length →
      (((idx.foldl (fun cs x => cs.set x ((cs.getD x []).del index)) cols).getD c []).isEmpty = false) →
      c ∈ idx := by
  intro c hlen hne
  by_cases hc : c ∈ idx
  · exact hc
  · rw [getD_delFold_not_mem _ _ _ _ hc] at hne
    rw [length_delFold] at hlen
    exact hInv.2 c hlen hne

/-- After deleting one key from chain `l`, the old index list is still
complete. -/
theorem delEntry_complete (chains : List JsMap) (idx : List Nat) (l c : Nat)
    (hInv : IndexInv chains idx) :
    ∀ i, i < (chains.set l ((chains.getD l []).del c)).length →
      ((chains.set l ((chains.getD l []).del c)).getD i []).isEmpty = false →
      i ∈ idx := by
  intro i hlen hne
  rw [List.length_set] at hlen
  by_cases hil : i = l
  · subst hil
    by_cases hl : i < chains.length
    · rw [getD_set_self _ _ _ hl] at hne
      exact hInv.2 i hlen (JsMap.isEmpty_del_false _ _ hne)
    · rw [List.set_eq_of_length_le (Nat.le_of_not_lt hl)] at hne
      exact hInv.2 i hlen hne
  · rw [getD_set_ne _ _ _ _ hil] at hne
    exact hInv.2 i hlen hne

/-- Well-formed reachable state: the invariant holds and each allocated
array (when its flag is set) has the allocation size. -/
def Good (M : SparseMatrix) (sz : Nat) : Prop :=
  Inv M ∧
  ((M.flags &&& LINES != 0) = true → M.lines.length = sz) ∧
  ((M.flags &&& COLUMNS != 0) = true → M.columns.length = sz)

theorem Good.setCoefLines (M : SparseMatrix) (sz : Nat) (l c : Nat) (v : Int)
    (hG : Good M sz) (hok : (SMJS.setCoefLines M l c v).2 = none) :
    Good (SMJS.setCoefLines M l c v).1 sz := by
  by_cases hf : (M.flags &&& LINES != 0) = true
  · by_cases hl : l < M.lines.length
    · simp only [SMJS.setCoefLines, if_pos hf, if_pos hl]
      refine ⟨⟨?_, hG.1.2⟩, ?_, ?_⟩
      · have h := IndexInv.setEntry M.lines M.linesIndex l c v hG.1.1 hl
        simpa [isNullLine] using h
      · intro _
        simpa using hG.2.1 hf
      · exact hG.2.2
    · exfalso
      simp only [SMJS.setCoefLines, if_pos hf, if_neg hl] at hok
      cases hok
  · simp only [SMJS.setCoefLines, if_neg hf]
    exact hG

theorem Good.setCoefColumns (M : SparseMatrix) (sz : Nat) (l c : Nat) (v : Int)
    (hG : Good M sz) (hok : (SMJS.setCoefColumns M l c v).2 = none) :
    Good (SMJS.setCoefColumns M l c v).1 sz := by
  by_cases hf : (M.flags &&& COLUMNS != 0) = true
  · by_cases hc : c < M.columns.length
    · simp only [SMJS.setCoefColumns, if_pos hf, if_pos hc]
      refine ⟨⟨hG.1.1, ?_⟩, hG.2.1, ?_⟩
      · have h := IndexInv.setEntry M.columns M.columnsIndex c l v hG.1.2 hc
        simpa [isNullColumn] using h
      · intro _
        simpa using hG.2.2 hf
    · exfalso
      simp only [SMJS.setCoefColumns, if_pos hf, if_neg hc] at hok
      cases hok
  · simp only [SMJS.setCoefColumns, if_neg hf]
    exact hG

theorem Good.nullifyLineSimple (M : SparseMatrix) (sz : Nat) (i : Nat)
    (hG : Good M sz) : Good (SMJS.nullifyLineSimple M i) sz := by
  refine ⟨⟨IndexInv.nullify _ _ _ hG.1.1, hG.1.2⟩, ?_, hG.2.2⟩
  intro hf
  rw [SMJS.nullifyLineSimple]
  simpa using hG.2.1 hf

theorem Good.nullifyColumnSimple (M : SparseMatrix) (sz : Nat) (i : Nat)
    (hG : Good M sz) : Good (SMJS.nullifyColumnSimple M i) sz := by
  refine ⟨⟨hG.1.1, IndexInv.nullify _ _ _ hG.1.2⟩, hG.2.1, ?_⟩
  intro hf
  rw [SMJS.nullifyColumnSimple]
  simpa using hG.2.2 hf

theorem Good.nullifyLineSweep (M : SparseMatrix) (sz : Nat) (i : Nat)
    (hG : Good M sz) : Good (SMJS.nullifyLineSweep M i) sz := by
  rw [SMJS.nullifyLineSweep]
  by_cases hf : (M.flags &&& COLUMNS != 0) = true
  · rw [if_pos hf]
    refine ⟨⟨hG.1.1, ?_⟩, hG.2.1, ?_⟩
    · exact IndexInv.clearRepair _ _ (delFold_complete i M.columnsIndex M.columns hG.1.2)
    · intro _
      rw [length_delFold]
      exact hG.2.2 hf
  · rw [if_neg hf]
    exact hG

theorem Good.nullifyColumnSweep (M : SparseMatrix) (sz : Nat) (i : Nat)
    (hG : Good M sz) : Good (SMJS.nullifyColumnSweep M i) sz := by
  rw [SMJS.nullifyColumnSweep]
  by_cases hf : (M.flags &&& LINES != 0) = true
  · rw [if_pos hf]
    refine ⟨⟨?_, hG.1.2⟩, ?_, hG.2.2⟩
    · exact IndexInv.clearRepair _ _ (delFold_complete i M.linesIndex M.lines hG.1.1)
    · intro _
      rw [length_delFold]
      exact hG.2.1 hf
  · rw [if_neg hf]
    exact hG

theorem Good.nulCoefLines (M : SparseMatrix) (sz : Nat) (l c : Nat)
    (hG : Good M sz) (hok : (SMJS.nulCoefLines M l c).2 = none) :
    Good (SMJS.nulCoefLines M l c).1 sz := by
  by_cases hf : (M.flags &&& LINES != 0) = true
  · by_cases hl : l < M.lines.length
    · simp only [SMJS.nulCoefLines, if_pos hf, if_pos hl]
      refine ⟨⟨?_, hG.1.2⟩, ?_, hG.2.2⟩
      · exact IndexInv.clearRepair _ _
          (delEntry_complete M.lines M.linesIndex l c hG.1.1)
      · intro _
        simpa using hG.2.1 hf
    · exfalso
      simp only [SMJS.nulCoefLines, if_pos hf, if_neg hl] at hok
      cases hok
  · simp only [SMJS.nulCoefLines, if_neg hf]
    exact hG

theorem Good.nulCoefColumns (M : SparseMatrix) (sz : Nat) (l c : Nat)
    (hG : Good M sz) (hok : (SMJS.nulCoefColumns M l c).2 = none) :
    Good (SMJS.nulCoefColumns M l c).1 sz := by
  by_cases hf : (M.flags &&& COLUMNS != 0) = true
  · by_cases hc : c < M.columns.length
    · simp only [SMJS.nulCoefColumns, if_pos hf, if_pos hc]
      refine ⟨⟨hG.1.1, ?_⟩, hG.2.1, ?_⟩
      · exact IndexInv.clearRepair _ _
          (delEntry_complete M.columns M.columnsIndex c l hG.1.2)
      · intro _
        simpa using hG.2.2 hf
    · exfalso
      simp only [SMJS.nulCoefColumns, if_pos hf, if_neg hc] at hok
      cases hok
  · simp only [SMJS.nulCoefColumns, if_neg hf]
    exact hG

theorem getD_replicate_nil (n i : Nat) :
    ((List.replicate n ([] : JsMap)).getD i []) = [] := by
  rw [List.getD_eq_getElem?_getD, List.getElem?_replicate]
  by_cases h : i < n <;> simp [h]

/-- The constructor establishes the well-formed state. -/
theorem Good.construct (linesSize columnsSize flags : Nat) (M : SparseMatrix)
    (h : construct linesSize columnsSize flags = .ok M) :
    Good M columnsSize := by
  rw [SMJS.construct] at h
  by_cases hr : (flags < 1 || flags > 3) = true
  · rw [if_pos hr] at h
    cases h
  · rw [if_neg hr] at h
    cases h
    have hidx : ∀ (ch : List JsMap), (∀ i, (ch.getD i []) = []) →
        IndexInv ch [] := by
      intro ch hch
      refine ⟨fun i hi => absurd hi (List.not_mem_nil i), fun i _ hne => ?_⟩
      rw [hch i] at hne
      cases hne
    refine ⟨⟨?_, ?_⟩, ?_, ?_⟩
    · refine hidx _ fun i => ?_
      by_cases hf : (flags &&& LINES != 0) = true <;>
        simp [hf, getD_replicate_nil]
    · refine hidx _ fun i => ?_
      by_cases hf : (flags &&& COLUMNS != 0) = true <;>
        simp [hf, getD_replicate_nil]
    · intro hf
      simp [hf]
    · intro hf
      simp [hf]

end SMJS

namespace OSM

/-- Chain type flag for column chain (`src/OSM/__base.hpp`). -/
def COLUMN : Nat := 1

/-- Chain type flag for row chain (`src/OSM/__base.hpp`). -/
def ROW : Nat := 2

/-- Error taxonomy of the C++ library according to the specification
(section 7).  The headers only declare which operations raise which
error. -/
inductive OSMError where
  | invalidScalar
  | orientationMismatch
  | indexOutOfRange
  | shapeMismatch
  | typeMismatch
deriving DecidableEq

/-- The `Chain` class state (`src/OSM/Chain.hpp` lines 38-49): the entry
map `chainData`, the orientation flag `chainTypeFlag` and the bound
`upperBound` (only meaningful when the bounded constructor was used,
embedded as an `Option`).  Coefficients use the default
`ZCoefficient = int`, embedded as `Int`; indices are the spec's
non-negative integers. -/
structure Chain where
  chainData : SMJS.JsMap
  chainTypeFlag : Nat
  upperBound : Option Nat
deriving DecidableEq

/-- Modelled from the spec: the body of `Chain::operator[] const`
(`src/OSM/Chain.hpp` line 363) is not in the repository.  Spec section
4.1, index read: returns the stored coefficient or the zero value if
absent; if the vector has a bound and the index is out of bound, it
returns zero without error. -/
def Chain.coeff (ch : Chain) (i : Nat) : Int :=
  match ch.upperBound with
  | some b => if i < b then (ch.chainData.get? i).getD 0 else 0
  | none => (ch.chainData.get? i).getD 0

/-- Modelled from the spec: the body of `operator*(int, Chain)`
(`src/OSM/Chain.hpp` line 199) is not in the repository.  Spec section
4.1 ScalarMultiply: fails with InvalidScalar if the factor is 0,
otherwise multiplies every present coefficient. -/
def scalarMulLeft (lambda : Int) (ch : Chain) : Except OSMError Chain :=
  if lambda = 0 then .error .invalidScalar
  else .ok ⟨ch.chainData.map (fun p => (p.1, lambda * p.2)),
            ch.chainTypeFlag, ch.upperBound⟩

/-- Modelled from the spec: the body of `operator*(Chain, _CT)`
(`src/OSM/Chain.hpp` line 218) is not in the repository. -/
def scalarMulRight (ch : Chain) (lambda : Int) : Except OSMError Chain :=
  if lambda = 0 then .error .invalidScalar
  else .ok ⟨ch.chainData.map (fun p => (p.1, p.2 * lambda)),
            ch.chainTypeFlag, ch.upperBound⟩

/-- Modelled from the spec: the body of `Chain::operator*=`
(`src/OSM/Chain.hpp` line 346) is not in the repository; the in-place
variant validates the factor before mutating (spec section 7). -/
def scalarMulAssign (ch : Chain) (lambda : Int) : Except OSMError Chain :=
  if lambda = 0 then .error .invalidScalar
  else .ok ⟨ch.chainData.map (fun p => (p.1, p.2 * lambda)),
            ch.chainTypeFlag, ch.upperBound⟩

/-- Modelled from the spec: entries of `operator+` (`src/OSM/Chain.hpp`
line 156, body not in the repository).  Spec section 4.1 Add: the
elementwise sum over the union of present indices; no zero-valued result
entry is collapsed (spec section 3 invariant). -/
def addEntries (ea eb : SMJS.JsMap) : SMJS.JsMap :=
  ea.map (fun p => (p.1, p.2 + ((eb.get? p.1).getD 0)))
    ++ eb.filter (fun p => (ea.get? p.1).isNone)

/-- Modelled from the spec: entries of `operator-` (`src/OSM/Chain.hpp`
line 180).  Elementwise difference over the union of present indices. -/
def subEntries (ea eb : SMJS.JsMap) : SMJS.JsMap :=
  ea.map (fun p => (p.1, p.2 - ((eb.get? p.1).getD 0)))
    ++ (eb.filter (fun p => (ea.get? p.1).isNone)).map (fun p => (p.1, -p.2))

/-- Modelled from the spec: `operator+` on chains fails with
OrientationMismatch when the orientations differ (spec sections 4.1 and
7), otherwise adds elementwise over the union of present indices. -/
def chainAdd (a b : Chain) : Except OSMError Chain :=
  if a.chainTypeFlag = b.chainTypeFlag then
    .ok ⟨addEntries a.chainData b.chainData, a.chainTypeFlag, a.upperBound⟩
  else .error .orientationMismatch

/-- Modelled from the spec: `operator-` on chains. -/
def chainSub (a b : Chain) : Except OSMError Chain :=
  if a.chainTypeFlag = b.chainTypeFlag then
    .ok ⟨subEntries a.chainData b.chainData, a.chainTypeFlag, a.upperBound⟩
  else .error .orientationMismatch

/-- Result of the outer product, represented by its present entries:
the list of generated column indices (keys of the row operand), each
with the generated column entries (keys of the column operand). -/
structure OuterMatrix where
  columns : List (Nat × SMJS.JsMap)
deriving DecidableEq

/-- Modelled from the spec: `operator*(Chain<_CT,COLUMN>, Chain<_CT,ROW>)`
(`src/OSM/Chain.hpp` line 241, body not in the repository).  Spec
section 4.1 OuterProduct: for every pair of present indices `(i, j)` the
result's entry `(i, j)` is `column[i] * row[j]`, and no entry is
materialized when either operand is absent. -/
def outerProduct (c : Chain) (r : Chain) : OuterMatrix :=
  ⟨r.chainData.map (fun q => (q.1, c.chainData.map (fun p => (p.1, p.2 * q.2))))⟩

/-- Entry of the outer-product result at row `i`, column `j`, or `none`
when absent. -/
def OuterMatrix.entry? (M : OuterMatrix) (i j : Nat) : Option Int :=
  match (M.columns.find? (fun q => q.1 == j)).map Prod.snd with
  | some col => col.get? i
  | none => none

/-- The `SparseMatrix` class state (`src/OSM/SparseMatrix.hpp`): the
chain vector and the matrix orientation (the `_ChainTypeFlag` of its
chain type). -/
structure SparseMatrix where
  chains : List Chain
  matrixTypeFlag : Nat
deriving DecidableEq

/-- Modelled from the spec: `Chain::transpose` (`src/OSM/Chain.hpp` line
585, body not in the repository).  Spec section 4.1: same entries,
opposite orientation tag. -/
def Chain.transpose (ch : Chain) : Chain :=
  ⟨ch.chainData, if ch.chainTypeFlag = COLUMN then ROW else COLUMN,
   ch.upperBound⟩

/-- Modelled from the spec: `SparseMatrix::transpose`
(`src/OSM/SparseMatrix.hpp` line 1531, body not in the repository).
Spec section 4.2: every chain's orientation flips and the matrix's
overall orientation flips; entries are unchanged. -/
def SparseMatrix.transpose (M : SparseMatrix) : SparseMatrix :=
  ⟨M.chains.map Chain.transpose,
   if M.matrixTypeFlag = COLUMN then ROW else COLUMN⟩

/-- Modelled from the spec: `SparseMatrix::operator[] const`
(`src/OSM/SparseMatrix.hpp` line 1113, body not in the repository; its
documentation promises a boundary check).  Spec section 4.2: fails with
IndexOutOfRange when the index is outside `[0, chainCount)`. -/
def SparseMatrix.getChain (M : SparseMatrix) (i : Int) : Except OSMError Chain :=
  if 0 ≤ i ∧ i < (M.chains.length : Int) then
    .ok (M.chains.getD i.toNat ⟨[], COLUMN, none⟩)
  else .error .indexOutOfRange

/-- Modelled from the spec: the non-const `SparseMatrix::operator[]`
(`src/OSM/SparseMatrix.hpp` line 1130), writing a chain with the same
boundary check. -/
def SparseMatrix.setChain (M : SparseMatrix) (i : Int) (ch : Chain) :
    Except OSMError SparseMatrix :=
  if 0 ≤ i ∧ i < (M.chains.length : Int) then
    .ok ⟨M.chains.set i.toNat ch, M.matrixTypeFlag⟩
  else .error .indexOutOfRange

/-- Orientation tags actually used by the library. -/
def SparseMatrix.WF (M : SparseMatrix) : Prop :=
  (M.matrixTypeFlag = COLUMN ∨ M.matrixTypeFlag = ROW) ∧
  (∀ ch ∈ M.chains, ch.chainTypeFlag = COLUMN ∨ ch.chainTypeFlag = ROW)

end OSM

namespace SMJS.JsMap

/-! Lookup lemmas for the association-list embedding of integer-keyed
maps, used to reason about the union-indexed chain operations. -/

theorem get?_cons_self (p : Nat × Int) (rest : JsMap) (k : Nat) (h : p.1 = k) :
    get? (p :: rest) k = some p.2 := by
  rw [get?, List.find?_cons_of_pos _ (by simpa using h)]
  rfl

theorem get?_cons_ne (p : Nat × Int) (rest : JsMap) (k : Nat) (h : p.1 ≠ k) :
    get? (p :: rest) k = get? rest k := by
  rw [get?, List.find?_cons_of_neg _ (by simpa using h), get?]

theorem get?_mapEntries (f : Nat → Int → Int) (m : JsMap) (k : Nat) :
    get? (m.map (fun p => (p.1, f p.1 p.2))) k = (get? m k).map (f k) := by
  induction m with
  | nil => rfl
  | cons p rest ih =>
    rw [List.map_cons]
    by_cases hk : p.1 = k
    · rw [get?_cons_self (p.1, f p.1 p.2) _ k hk, get?_cons_self p rest k hk, hk]
      rfl
    · rw [get?_cons_ne (p.1, f p.1 p.2) _ k hk, get?_cons_ne p rest k hk]
      exact ih

theorem get?_filterKey_keep (g : Nat → Bool) (m : JsMap) (k : Nat)
    (hg : g k = true) :
    get? (m.filter (fun p => g p.1)) k = get? m k := by
  induction m with
  | nil => rfl
  | cons p rest ih =>
    rw [List.filter_cons]
    by_cases hk : p.1 = k
    · rw [if_pos (by rw [hk]; exact hg), get?_cons_self _ _ _ hk,
        get?_cons_self _ _ _ hk]
    · by_cases hgp : g p.1 = true
      · rw [if_pos hgp, get?_cons_ne _ _ _ hk, get?_cons_ne _ _ _ hk]
        exact ih
      · rw [if_neg hgp, get?_cons_ne _ _ _ hk]
        exact ih

theorem get?_filterKey_drop (g : Nat → Bool) (m : JsMap) (k : Nat)
    (hg : g k = false) :
    get? (m.filter (fun p => g p.1)) k = none := by
  induction m with
  | nil => rfl
  | cons p rest ih =>
    rw [List.filter_cons]
    by_cases hk : p.1 = k
    · rw [if_neg (by rw [hk, hg]; exact Bool.false_ne_true)]
      exact ih
    · by_cases hgp : g p.1 = true
      · rw [if_pos hgp, get?_cons_ne _ _ _ hk]
        exact ih
      · rw [if_neg hgp]
        exact ih

theorem get?_append_some (m1 m2 : JsMap) (k : Nat) (v : Int)
    (h : get? m1 k = some v) :
    get? (m1 ++ m2) k = some v := by
  rw [get?] at h ⊢
  rw [List.find?_append]
  cases hf : m1.find? (fun p => p.1 == k) with
  | none => rw [hf] at h; cases h
  | some p => rw [hf] at h; rw [Option.or_some]; exact h

theorem get?_append_none (m1 m2 : JsMap) (k : Nat)
    (h : get? m1 k = none) :
    get? (m1 ++ m2) k = get? m2 k := by
  rw [get?] at h ⊢
  rw [List.find?_append]
  cases hf : m1.find? (fun p => p.1 == k) with
  | none => rw [Option.none_or]; rfl
  | some p => rw [hf] at h; cases h

end SMJS.JsMap

namespace OSM

theorem get?_addEntries (ea eb : SMJS.JsMap) (k : Nat) :
    SMJS.JsMap.get? (addEntries ea eb) k =
      match SMJS.JsMap.get? ea k with
      | some va => some (va + ((SMJS.JsMap.get? eb k).getD 0))
      | none => SMJS.JsMap.get? eb k := by
  rw [addEntries]
  cases ha : SMJS.JsMap.get? ea k with
  | some va =>
    apply SMJS.JsMap.get?_append_some
    have h := SMJS.JsMap.get?_mapEntries
      (fun x v => v + ((SMJS.JsMap.get? eb x).getD 0)) ea k
    rw [ha] at h
    exact h
  | none =>
    rw [SMJS.JsMap.get?_append_none]
    · exact SMJS.JsMap.get?_filterKey_keep
        (fun x => (SMJS.JsMap.get? ea x).isNone) eb k
        (by show (SMJS.JsMap.get? ea k).isNone = true; rw [ha]; rfl)
    · have h := SMJS.JsMap.get?_mapEntries
        (fun x v => v + ((SMJS.JsMap.get? eb x).getD 0)) ea k
      rw [ha] at h
      exact h

theorem get?_subEntries (ea eb : SMJS.JsMap) (k : Nat) :
    SMJS.JsMap.get? (subEntries ea eb) k =
      match SMJS.JsMap.get? ea k with
      | some va => some (va - ((SMJS.JsMap.get? eb k).getD 0))
      | none => (SMJS.JsMap.get? eb k).map (fun v => -v) := by
  rw [subEntries]
  cases ha : SMJS.JsMap.get? ea k with
  | some va =>
    apply SMJS.JsMap.get?_append_some
    have h := SMJS.JsMap.get?_mapEntries
      (fun x v => v - ((SMJS.JsMap.get? eb x).getD 0)) ea k
    rw [ha] at h
    exact h
  | none =>
    rw [SMJS.JsMap.get?_append_none]
    · have h1 := SMJS.JsMap.get?_mapEntries (fun _ v => -v)
        (eb.filter (fun p => (SMJS.JsMap.get? ea p.1).isNone)) k
      rw [SMJS.JsMap.get?_filterKey_keep
        (fun x => (SMJS.JsMap.get? ea x).isNone) eb k
        (by show (SMJS.JsMap.get? ea k).isNone = true; rw [ha]; rfl)] at h1
      exact h1
    · have h := SMJS.JsMap.get?_mapEntries
        (fun x v => v - ((SMJS.JsMap.get? eb x).getD 0)) ea k
      rw [ha] at h
      exact h

/-- Value actually read at index `k` (absent key reads as zero). -/
def Chain.valAt (ch : Chain) (k : Nat) : Int := (ch.chainData.get? k).getD 0

/-- Presence of index `k` among the stored entries. -/
def Chain.hasKey (ch : Chain) (k : Nat) : Bool := (ch.chainData.get? k).isSome

/-- The generated column list of an outer product looked up at column
index `j`. -/
theorem find?_outerCols (c : Chain) (rd : SMJS.JsMap) (j : Nat) :
    ((rd.map (fun q => (q.1, c.chainData.map (fun p => (p.1, p.2 * q.2))))).find?
        (fun q => q.1 == j)).map Prod.snd =
      (SMJS.JsMap.get? rd j).map
        (fun rv => c.chainData.map (fun p => (p.1, p.2 * rv))) := by
  induction rd with
  | nil => rfl
  | cons q rest ih =>
    by_cases hj : q.1 = j
    · rw [List.map_cons, List.find?_cons_of_pos _ (by simp [hj]),
        SMJS.JsMap.get?_cons_self q rest j hj]
      rfl
    · rw [List.map_cons, List.find?_cons_of_neg _ (by simp [hj]),
        SMJS.JsMap.get?_cons_ne q rest j hj]
      exact ih

/-- Characterization of outer-product entries. -/
theorem outer_entry_char (c r : Chain) (i j : Nat) :
    (outerProduct c r).entry? i j =
      match SMJS.JsMap.get? c.chainData i, SMJS.JsMap.get? r.chainData j with
      | some cv, some rv => some (cv * rv)
      | _, _ => none := by
  rw [OuterMatrix.entry?, outerProduct]
  have h := find?_outerCols c r.chainData j
  rw [h]
  cases hr : SMJS.JsMap.get? r.chainData j with
  | some rv =>
    have h2 := SMJS.JsMap.get?_mapEntries (fun _ v => v * rv) c.chainData i
    show SMJS.JsMap.get? (c.chainData.map (fun p => (p.1, p.2 * rv))) i = _
    rw [h2]
    cases hc : SMJS.JsMap.get? c.chainData i <;> rfl
  | none =>
    cases hc : SMJS.JsMap.get? c.chainData i <;> rfl

/-- Presence of outer-product entries. -/
theorem outer_entry_isSome (c r : Chain) (i j : Nat) :
    ((outerProduct c r).entry? i j).isSome =
      ((SMJS.JsMap.get? c.chainData i).isSome
        && (SMJS.JsMap.get? r.chainData j).isSome) := by
  rw [outer_entry_char]
  cases hc : SMJS.JsMap.get? c.chainData i <;>
    cases hr : SMJS.JsMap.get? r.chainData j <;> rfl

end OSM

/-- Concrete column vector `{0:2, 2:5}` of the spec's outer-product
scenario (3-entry column vector, index 1 absent). -/
def colEx : OSM.Chain := ⟨[(0, 2), (2, 5)], OSM.COLUMN, some 3⟩

/-- Concrete row vector `{0:3, 1:4}` of the spec's outer-product
scenario. -/
def rowEx : OSM.Chain := ⟨[(0, 3), (1, 4)], OSM.ROW, none⟩

theorem colEx_keys (i : Nat) :
    (SMJS.JsMap.get? colEx.chainData i).isSome
      = (decide (i = 0) || decide (i = 2)) := by
  show (SMJS.JsMap.get? [(0, 2), (2, 5)] i).isSome = _
  by_cases h0 : i = 0
  · subst h0
    rfl
  · by_cases h2 : i = 2
    · subst h2
      rfl
    · rw [SMJS.JsMap.get?_cons_ne _ _ _ (fun h => h0 h.symm),
        SMJS.JsMap.get?_cons_ne _ _ _ (fun h => h2 h.symm)]
      simp [SMJS.JsMap.get?, h0, h2]

theorem rowEx_keys (j : Nat) :
    (SMJS.JsMap.get? rowEx.chainData j).isSome
      = (decide (j = 0) || decide (j = 1)) := by
  show (SMJS.JsMap.get? [(0, 3), (1, 4)] j).isSome = _
  by_cases h0 : j = 0
  · subst h0
    rfl
  · by_cases h1 : j = 1
    · subst h1
      rfl
    · rw [SMJS.JsMap.get?_cons_ne _ _ _ (fun h => h0 h.symm),
        SMJS.JsMap.get?_cons_ne _ _ _ (fun h => h1 h.symm)]
      simp [SMJS.JsMap.get?, h0, h1]

/-- C5.  OuterProduct of a column chain and a row chain yields a matrix
whose entry at `(i, j)` is `column[i] * row[j]`, present exactly when
index `i` is present in the column operand and `j` in the row operand;
on the spec's concrete scenario (`{0:2, 2:5}` and `{0:3, 1:4}`) the
result has exactly the four entries `(0,0)=6`, `(0,1)=8`, `(2,0)=15`,
`(2,1)=20` and none at row index 1. -/
theorem outerProduct_spec :
    (∀ (c r : OSM.Chain) (i j : Nat),
      (OSM.outerProduct c r).entry? i j =
        match SMJS.JsMap.get? c.chainData i, SMJS.JsMap.get? r.chainData j with
        | some cv, some rv => some (cv * rv)
        | _, _ => none) ∧
    (∀ (c r : OSM.Chain) (i j : Nat),
      ((OSM.outerProduct c r).entry? i j).isSome =
        ((SMJS.JsMap.get? c.chainData i).isSome
          && (SMJS.JsMap.get? r.chainData j).isSome)) ∧
    ((OSM.outerProduct colEx rowEx).entry? 0 0 = some 6 ∧
     (OSM.outerProduct colEx rowEx).entry? 0 1 = some 8 ∧
     (OSM.outerProduct colEx rowEx).entry? 2 0 = some 15 ∧
     (OSM.outerProduct colEx rowEx).entry? 2 1 = some 20) ∧
    (∀ i j : Nat, ((OSM.outerProduct colEx rowEx).entry? i j).isSome = true ↔
      ((i = 0 ∨ i = 2) ∧ (j = 0 ∨ j = 1))) := by
  refine ⟨OSM.outer_entry_char, OSM.outer_entry_isSome,
    ⟨rfl, rfl, rfl, rfl⟩, fun i j => ?_⟩
  rw [OSM.outer_entry_isSome, colEx_keys i, rowEx_keys j]
  simp

/-- C3.  Scalar multiplication by zero — in either operand order or in
place — fails with InvalidScalar for every vector, empty or not, and
produces no result vector. -/
theorem scalarMultiply_zero_fails (ch : OSM.Chain) :
    OSM.scalarMulLeft 0 ch = .error .invalidScalar ∧
    OSM.scalarMulRight ch 0 = .error .invalidScalar ∧
    OSM.scalarMulAssign ch 0 = .error .invalidScalar :=
  ⟨rfl, rfl, rfl⟩

/-- Concrete empty vector for the C4 counterexample. -/
def chainA0 : OSM.Chain := ⟨[], OSM.COLUMN, none⟩

/-- Concrete one-entry vector for the C4 counterexample. -/
def chainB0 : OSM.Chain := ⟨[(0, 1)], OSM.COLUMN, none⟩

/-- C4 counterexample.  With `a` empty and `b = {0:1}`, the vector
`(a+b)-b` carries an explicit zero-valued entry at key 0, so its present
key set is `{0}` while `a` has no present keys: the round-trip does not
return the same present entries. -/
theorem add_sub_roundtrip_cex :
    OSM.chainAdd chainA0 chainB0 = .ok ⟨[(0, 1)], OSM.COLUMN, none⟩ ∧
    OSM.chainSub ⟨[(0, 1)], OSM.COLUMN, none⟩ chainB0
      = .ok ⟨[(0, 0)], OSM.COLUMN, none⟩ ∧
    OSM.Chain.hasKey ⟨[(0, 0)], OSM.COLUMN, none⟩ 0 = true ∧
    OSM.Chain.hasKey chainA0 0 = false :=
  ⟨rfl, rfl, rfl, rfl⟩

/-- C4 (amended).  For chains of the same orientation, `(a+b)-b` reads
the same value as `a` at every index, and its present key set is the
union of the key sets of `a` and `b` (keys from `b` absent in `a`
survive with value zero, since add/subtract work over the union of
present indices and zero entries are not collapsed). -/
theorem add_sub_roundtrip (a b s r : OSM.Chain)
    (hab : OSM.chainAdd a b = .ok s) (hsb : OSM.chainSub s b = .ok r) :
    (∀ k, OSM.Chain.valAt r k = OSM.Chain.valAt a k) ∧
    (∀ k, OSM.Chain.hasKey r k
      = (OSM.Chain.hasKey a k || OSM.Chain.hasKey b k)) := by
  have hor : a.chainTypeFlag = b.chainTypeFlag := by
    by_contra hne
    rw [OSM.chainAdd, if_neg hne] at hab
    cases hab
  rw [OSM.chainAdd, if_pos hor] at hab
  injection hab with hab
  subst hab
  simp only [OSM.chainSub] at hsb
  rw [if_pos hor] at hsb
  injection hsb with hsb
  subst hsb
  constructor
  · intro k
    show (SMJS.JsMap.get? (OSM.subEntries
        (OSM.addEntries a.chainData b.chainData) b.chainData) k).getD 0
      = (SMJS.JsMap.get? a.chainData k).getD 0
    rw [OSM.get?_subEntries, OSM.get?_addEntries]
    cases ha : SMJS.JsMap.get? a.chainData k with
    | some va =>
      cases hb : SMJS.JsMap.get? b.chainData k with
      | some vb => simp
      | none => simp
    | none =>
      cases hb : SMJS.JsMap.get? b.chainData k with
      | some vb => simp
      | none => simp
  · intro k
    show (SMJS.JsMap.get? (OSM.subEntries
        (OSM.addEntries a.chainData b.chainData) b.chainData) k).isSome
      = ((SMJS.JsMap.get? a.chainData k).isSome
        || (SMJS.JsMap.get? b.chainData k).isSome)
    rw [OSM.get?_subEntries, OSM.get?_addEntries]
    cases ha : SMJS.JsMap.get? a.chainData k with
    | some va =>
      cases hb : SMJS.JsMap.get? b.chainData k with
      | some vb => rfl
      | none => rfl
    | none =>
      cases hb : SMJS.JsMap.get? b.chainData k with
      | some vb => rfl
      | none => rfl

/-- Witness for C4's amended theorem at `a = {1:5}`, `b = {0:2}`. -/
theorem add_sub_roundtrip_witness :
    OSM.Chain.valAt ⟨[(1, 5), (0, 0)], OSM.COLUMN, none⟩ 1
        = OSM.Chain.valAt ⟨[(1, 5)], OSM.COLUMN, none⟩ 1 ∧
    OSM.Chain.hasKey ⟨[(1, 5), (0, 0)], OSM.COLUMN, none⟩ 0
        = (OSM.Chain.hasKey ⟨[(1, 5)], OSM.COLUMN, none⟩ 0
          || OSM.Chain.hasKey ⟨[(0, 2)], OSM.COLUMN, none⟩ 0) :=
  ⟨(add_sub_roundtrip ⟨[(1, 5)], OSM.COLUMN, none⟩ ⟨[(0, 2)], OSM.COLUMN, none⟩
      _ _ rfl rfl).1 1,
   (add_sub_roundtrip ⟨[(1, 5)], OSM.COLUMN, none⟩ ⟨[(0, 2)], OSM.COLUMN, none⟩
      _ _ rfl rfl).2 0⟩

/-- C6.  An index read on a vector returns the stored coefficient when
the key is present (and in bound), the zero value when absent, and zero
without error when the vector has a bound and the index is out of bound;
the JS `getCoefficient` likewise returns the stored value or zero, its
`isNullLine`/`isNullColumn` shortcut agreeing with the chain maps under
the index invariant. -/
theorem index_read_zero_default (ch : OSM.Chain) (i : Nat)
    (M : SMJS.SparseMatrix) (l c : Nat) :
    (ch.upperBound = none →
      OSM.Chain.coeff ch i = (SMJS.JsMap.get? ch.chainData i).getD 0) ∧
    (∀ b, ch.upperBound = some b → i < b →
      OSM.Chain.coeff ch i = (SMJS.JsMap.get? ch.chainData i).getD 0) ∧
    (∀ b, ch.upperBound = some b → b ≤ i → OSM.Chain.coeff ch i = 0) ∧
    (SMJS.Inv M → SMJS.getCoefficient M l c =
      (if (M.flags &&& SMJS.LINES != 0) = true
        then ((M.lines.getD l []).get? c).getD 0
        else ((M.columns.getD c []).get? l).getD 0)) := by
  refine ⟨?_, ?_, ?_, ?_⟩
  · intro h
    rw [OSM.Chain.coeff, h]
  · intro b hb hib
    rw [OSM.Chain.coeff, hb]
    exact if_pos hib
  · intro b hb hbi
    rw [OSM.Chain.coeff, hb]
    exact if_neg (by omega)
  · intro hInv
    rw [SMJS.getCoefficient]
    by_cases hf : (M.flags &&& SMJS.LINES != 0) = true
    · rw [if_pos hf, if_pos hf]
      by_cases hnull : SMJS.isNullLine M l = true
      · rw [if_pos hnull]
        have hmem : l ∉ M.linesIndex := by
          simpa [SMJS.isNullLine] using hnull
        have hempty : M.lines.getD l [] = [] := by
          by_cases hlen : l < M.lines.length
          · by_cases he : (M.lines.getD l []).isEmpty = true
            · exact List.isEmpty_iff.mp he
            · have he2 : (M.lines.getD l []).isEmpty = false := by
                revert he
                cases (M.lines.getD l []).isEmpty <;> simp
              exact absurd (hInv.1.2 l hlen he2) hmem
          · rw [List.getD_eq_getElem?_getD,
              List.getElem?_eq_none (Nat.le_of_not_lt hlen)]
            rfl
        rw [hempty]
        rfl
      · rw [if_neg hnull]
    · rw [if_neg hf, if_neg hf]
      by_cases hnull : SMJS.isNullColumn M c = true
      · rw [if_pos hnull]
        have hmem : c ∉ M.columnsIndex := by
          simpa [SMJS.isNullColumn] using hnull
        have hempty : M.columns.getD c [] = [] := by
          by_cases hlen : c < M.columns.length
          · by_cases he : (M.columns.getD c []).isEmpty = true
            · exact List.isEmpty_iff.mp he
            · have he2 : (M.columns.getD c []).isEmpty = false := by
                revert he
                cases (M.columns.getD c []).isEmpty <;> simp
              exact absurd (hInv.2.2 c hlen he2) hmem
          · rw [List.getD_eq_getElem?_getD,
              List.getElem?_eq_none (Nat.le_of_not_lt hlen)]
            rfl
        rw [hempty]
        rfl
      · rw [if_neg hnull]

/-- Bounded chain used by the C6 witness: bound 4, with an (unchecked)
write at index 5. -/
def chainW : OSM.Chain := ⟨[(5, 9)], OSM.COLUMN, some 4⟩

/-- Matrix used by the C6 witness. -/
def matrixW : SMJS.SparseMatrix := ⟨3, [[(1, 4)], []], [[], [(0, 4)]], [0], [1]⟩

/-- Witness for C6: the bounded chain reads zero past its bound, and the
JS matrix reads the stored value through the line maps. -/
theorem index_read_zero_default_witness :
    OSM.Chain.coeff chainW 5 = 0 ∧
    SMJS.getCoefficient matrixW 0 1 =
      (if (matrixW.flags &&& SMJS.LINES != 0) = true
        then ((matrixW.lines.getD 0 []).get? 1).getD 0
        else ((matrixW.columns.getD 1 []).get? 0).getD 0) :=
  ⟨(index_read_zero_default chainW 5 matrixW 0 1).2.2.1 4 rfl (by omega),
   (index_read_zero_default chainW 5 matrixW 0 1).2.2.2 (by decide)⟩

/-- A chain with a valid orientation flag transposes back to itself. -/
theorem chain_transpose_transpose (ch : OSM.Chain)
    (h : ch.chainTypeFlag = OSM.COLUMN ∨ ch.chainTypeFlag = OSM.ROW) :
    ch.transpose.transpose = ch := by
  cases ch with
  | mk d f u =>
    rcases h with h | h <;>
      simp_all [OSM.Chain.transpose, OSM.COLUMN, OSM.ROW]

/-- C7.  Transpose flips every chain's orientation and the matrix's
overall orientation while leaving all entries unchanged, so applying it
twice restores the original matrix. -/
theorem transpose_transpose (M : OSM.SparseMatrix) (hWF : M.WF) :
    M.transpose.transpose = M ∧
    M.transpose.chains.map OSM.Chain.chainData
      = M.chains.map OSM.Chain.chainData ∧
    (M.matrixTypeFlag = OSM.COLUMN → M.transpose.matrixTypeFlag = OSM.ROW) ∧
    (M.matrixTypeFlag = OSM.ROW → M.transpose.matrixTypeFlag = OSM.COLUMN) := by
  obtain ⟨hflag, hchains⟩ := hWF
  refine ⟨?_, ?_, ?_, ?_⟩
  · cases M with
    | mk chains flag =>
      simp only [OSM.SparseMatrix.transpose, List.map_map,
        OSM.SparseMatrix.mk.injEq]
      constructor
      · have hcc : ∀ ch ∈ chains,
            (OSM.Chain.transpose ∘ OSM.Chain.transpose) ch = id ch := by
          intro ch hch
          exact chain_transpose_transpose ch (hchains ch hch)
        rw [List.map_congr_left hcc, List.map_id]
      · rcases hflag with h | h <;> simp_all [OSM.COLUMN, OSM.ROW]
  · simp only [OSM.SparseMatrix.transpose, List.map_map]
    rfl
  · intro h
    simp [OSM.SparseMatrix.transpose, h]
  · intro h
    rw [OSM.SparseMatrix.transpose]
    show (if M.matrixTypeFlag = OSM.COLUMN then OSM.ROW else OSM.COLUMN)
      = OSM.COLUMN
    rw [h]
    rfl

/-- Witness for C7 on a one-column matrix. -/
theorem transpose_transpose_witness :
    OSM.SparseMatrix.transpose
      (OSM.SparseMatrix.transpose ⟨[⟨[(0, 7)], 1, none⟩], 1⟩)
      = ⟨[⟨[(0, 7)], 1, none⟩], 1⟩ :=
  (transpose_transpose ⟨[⟨[(0, 7)], 1, none⟩], 1⟩ (by
    constructor
    · exact Or.inl rfl
    · intro ch hch
      rw [List.mem_singleton.mp hch]
      exact Or.inl rfl)).1

/-- C2 counterexample.  In the JS implementation, reading a chain at an
out-of-range position does not fail with an IndexOutOfRange error: on a
2-slot matrix, `getLine(5)` and `getColumn(5)` return `undefined`
(embedded as `.ok none`). -/
theorem chain_indexing_unchecked_cex :
    SMJS.construct 10 2 3 = .ok ⟨3, [[], []], [[], []], [], []⟩ ∧
    SMJS.getLine ⟨3, [[], []], [[], []], [], []⟩ 5 = .ok none ∧
    SMJS.getColumn ⟨3, [[], []], [[], []], [], []⟩ 5 = .ok none :=
  ⟨rfl, rfl, rfl⟩

/-- C2 (amended).  The C++ `SparseMatrix::operator[]` (modelled from the
spec, since only its declaration with the documented boundary check is
in the repository) fails with IndexOutOfRange for every index outside
`[0, chainCount)` (for reads and writes) and returns the stored chain
inside; the JS `getLine`/`getColumn` perform no bounds check and return
`undefined` (no error) out of range. -/
theorem chain_indexing_bounds (M : OSM.SparseMatrix) (i : Int)
    (MJ : SMJS.SparseMatrix) (j : Nat) :
    ((i < 0 ∨ (M.chains.length : Int) ≤ i) →
      (M.getChain i = .error .indexOutOfRange ∧
       ∀ ch, M.setChain i ch = .error .indexOutOfRange)) ∧
    ((0 ≤ i ∧ i < (M.chains.length : Int)) →
      M.getChain i = .ok (M.chains.getD i.toNat ⟨[], OSM.COLUMN, none⟩)) ∧
    (SMJS.getLine MJ j = .ok MJ.lines[j]?) ∧
    (MJ.lines.length ≤ j → SMJS.getLine MJ j = .ok none) := by
  have hguard : SMJS.assertLineThrows MJ.flags = false := by
    simp [SMJS.assertLineThrows, SMJS.LINES]
  refine ⟨?_, ?_, ?_, ?_⟩
  · intro h
    have hne : ¬(0 ≤ i ∧ i < (M.chains.length : Int)) := by omega
    exact ⟨by rw [OSM.SparseMatrix.getChain, if_neg hne],
           fun ch => by rw [OSM.SparseMatrix.setChain, if_neg hne]⟩
  · intro h
    rw [OSM.SparseMatrix.getChain, if_pos h]
  · rw [SMJS.getLine, hguard]
    rfl
  · intro hj
    rw [SMJS.getLine, hguard, List.getElem?_eq_none hj]
    rfl

/-- Witness for C2: the modelled C++ indexing errors at 5 and reads at 0
on a one-chain matrix, while the JS `getLine` yields `undefined` at 7. -/
theorem chain_indexing_bounds_witness :
    OSM.SparseMatrix.getChain ⟨[⟨[(0, 1)], 1, none⟩], 1⟩ 5
      = .error .indexOutOfRange ∧
    OSM.SparseMatrix.getChain ⟨[⟨[(0, 1)], 1, none⟩], 1⟩ 0
      = .ok ⟨[(0, 1)], 1, none⟩ ∧
    SMJS.getLine ⟨3, [[], []], [[], []], [], []⟩ 7 = .ok none :=
  ⟨((chain_indexing_bounds ⟨[⟨[(0, 1)], 1, none⟩], 1⟩ 5
      ⟨3, [[], []], [[], []], [], []⟩ 7).1 (by decide)).1,
   (chain_indexing_bounds ⟨[⟨[(0, 1)], 1, none⟩], 1⟩ 0
      ⟨3, [[], []], [[], []], [], []⟩ 7).2.1 (by decide),
   (chain_indexing_bounds ⟨[⟨[(0, 1)], 1, none⟩], 1⟩ 0
      ⟨3, [[], []], [[], []], [], []⟩ 7).2.2.2 (by decide)⟩

/-- C8.  The orientation guards `#assertLine` and `#assertColumn` never
throw for any flag value (in both JS files): the guard condition parses
as `flags & (CONSTANT == 0)`, which is always 0, so the advertised
TypeError branch is unreachable and `getLine`/`getColumn` always proceed
past the guard to the array read. -/
theorem assert_guards_never_throw :
    (∀ flags : Nat, SMJS.assertLineThrows flags = false) ∧
    (∀ flags : Nat, SMJS.assertColumnThrowsA flags = false) ∧
    (∀ flags : Nat, SMJS.assertColumnThrowsB flags = false) ∧
    (∀ (M : SMJS.SparseMatrix) (i : Nat),
      SMJS.getLine M i = .ok M.lines[i]?) ∧
    (∀ (M : SMJS.SparseMatrix) (i : Nat),
      SMJS.getColumn M i = .ok M.columns[i]?) := by
  have hL : ∀ flags : Nat, SMJS.assertLineThrows flags = false := by
    intro flags
    simp [SMJS.assertLineThrows, SMJS.LINES]
  have hCA : ∀ flags : Nat, SMJS.assertColumnThrowsA flags = false := by
    intro flags
    simp [SMJS.assertColumnThrowsA, SMJS.LINES]
  have hCB : ∀ flags : Nat, SMJS.assertColumnThrowsB flags = false := by
    intro flags
    simp [SMJS.assertColumnThrowsB, SMJS.COLUMNS]
  refine ⟨hL, hCA, hCB, fun M i => ?_, fun M i => ?_⟩
  · rw [SMJS.getLine, hL M.flags]
    rfl
  · rw [SMJS.getColumn, hCB M.flags]
    rfl

/-- C9.  In `src/sparsematrix.js`, on a matrix with both flags,
`nullifyLine(i)` modifies only `lines[i]` and `linesIndex`: the column
maps and `columnsIndex` are left unchanged, so coefficients previously
mirrored into the column maps remain observable through `getColumn`
after the line is nullified — and symmetrically for `nullifyColumn`. -/
theorem nullify_frame (M : SMJS.SparseMatrix) (i : Nat) (hflags : M.flags = 3) :
    ((SMJS.nullifyLineSimple M i).columns = M.columns ∧
     (SMJS.nullifyLineSimple M i).columnsIndex = M.columnsIndex ∧
     (∀ c, SMJS.getColumn (SMJS.nullifyLineSimple M i) c = SMJS.getColumn M c) ∧
     (∀ j, j ≠ i → (SMJS.nullifyLineSimple M i).lines[j]? = M.lines[j]?)) ∧
    ((SMJS.nullifyColumnSimple M i).lines = M.lines ∧
     (SMJS.nullifyColumnSimple M i).linesIndex = M.linesIndex ∧
     (∀ l, SMJS.getLine (SMJS.nullifyColumnSimple M i) l = SMJS.getLine M l) ∧
     (∀ j, j ≠ i → (SMJS.nullifyColumnSimple M i).columns[j]? = M.columns[j]?)) := by
  refine ⟨⟨rfl, rfl, fun c => rfl, fun j hj => ?_⟩,
          ⟨rfl, rfl, fun l => rfl, fun j hj => ?_⟩⟩
  · exact List.getElem?_set_ne (fun h => hj h.symm)
  · exact List.getElem?_set_ne (fun h => hj h.symm)

/-- Witness for C9: after nullifying line 0 of a mirrored 2×2 matrix the
column maps still hold the mirrored coefficient. -/
theorem nullify_frame_witness :
    (SMJS.nullifyLineSimple ⟨3, [[(0, 5)], []], [[(0, 5)], []], [0], [0]⟩ 0).columns
      = [[(0, 5)], []] ∧
    (SMJS.nullifyLineSimple ⟨3, [[(0, 5)], []], [[(0, 5)], []], [0], [0]⟩ 0).lines[1]?
      = some [] :=
  ⟨(nullify_frame ⟨3, [[(0, 5)], []], [[(0, 5)], []], [0], [0]⟩ 0 rfl).1.1,
   ((nullify_frame ⟨3, [[(0, 5)], []], [[(0, 5)], []], [0], [0]⟩ 0 rfl).1.2.2.2
      1 (by omega)).trans rfl⟩

/-- C10.  The JS constructor allocates the `lines` array with
`_columns_size` slots (and `_lines_size` never influences the allocated
state): the number of line slots equals the column count argument. -/
theorem construct_ignores_linesSize (ls1 ls2 cs flags : Nat) :
    SMJS.construct ls1 cs flags = SMJS.construct ls2 cs flags ∧
    (∀ M, SMJS.construct ls1 cs flags = .ok M →
      ((M.flags &&& SMJS.LINES != 0) = true → M.lines.length = cs) ∧
      ((M.flags &&& SMJS.COLUMNS != 0) = true → M.columns.length = cs)) := by
  refine ⟨rfl, fun M h => ?_⟩
  have hG := SMJS.Good.construct ls1 cs flags M h
  exact ⟨hG.2.1, hG.2.2⟩

/-- Witness for C10: constructed with `linesSize = 7` but
`columnsSize = 2`, the matrix has 2 line slots. -/
theorem construct_ignores_linesSize_witness :
    (⟨3, [[], []], [[], []], [], []⟩ : SMJS.SparseMatrix).lines.length = 2 :=
  ((construct_ignores_linesSize 7 9 2 3).2
    ⟨3, [[], []], [[], []], [], []⟩ rfl).1 rfl
